import Mathlib

/-!
Shallow embedding of the streaming orchestration core of the repository
(`app/chat/chat_manager.py`, `app/tools/tool_manager.py`,
`app/tools/base_tool.py`): the Streaming Tool Contract, the Tool Dispatch
Registry (`ToolManager.execute_tool`), the Action Executor
(`ChatManager.execute_action`) and the Orchestration Pipeline
(`ChatManager.process_message_stream`).

Python async generators are modelled as pure functions from an explicit
oracle of external-collaborator outcomes (database lookups, LLM calls,
per-tool event streams) to the finite list of events they yield.  Faults
raised by a collaborator are modelled with `Except`/`Option` values in the
oracle; the `try/except` structure of the source is reproduced by explicit
case analysis on those values.
-/

/-- Python truthiness of an optional string: `None` and `""` are falsy. -/
def strOptTruthy : Option String → Bool
  | none => false
  | some s => !(s == "")

/-! ## Tool events and envelopes (`base_tool.py`, `tool_manager.py`) -/

/-- A Tool Event yielded by a tool's `_run` implementation.  The source
inspects only `data.get("type") == "content_chunk"` and its `content`
field; every other event shape is collapsed into `other`.  A missing or
`None` content is modelled as the empty string (both are falsy in the
source's `if chunk_content:` check and behave identically). -/
inductive ToolEvent where
  | contentChunk (content : String)
  | other (kind : String) (payload : String)
deriving DecidableEq, Repr

/-- The uniform envelope produced by `BaseTool.run` / relayed by
`ToolManager.execute_tool`: `{"status": "success", "data": ...}` or
`{"status": "error", "error": ...}`. -/
inductive Envelope where
  | success (data : ToolEvent)
  | error (msg : String)
deriving DecidableEq, Repr

/-- The inner data of a success envelope, if any. -/
def Envelope.successData : Envelope → Option ToolEvent
  | .success d => some d
  | .error _ => none

/-- Behaviour of one invocation of a tool's `_run` async generator: the
chunks it yields, followed either by normal completion (`fault = none`) or
by raising an exception carrying message `fault = some m`. -/
structure ToolRunBehavior where
  chunks : List ToolEvent
  fault : Option String
deriving DecidableEq, Repr

/-- `BaseTool.run` (base_tool.py lines 25-40): wraps every `_run` chunk as
a success envelope; an exception raised by `_run` is caught and reified as
one terminal error envelope. -/
def BaseTool.run (b : ToolRunBehavior) : List Envelope :=
  b.chunks.map Envelope.success ++
    (match b.fault with
     | none => []
     | some m => [Envelope.error m])

/-- Outcome of the resolution phase of `ToolManager.execute_tool`
(tool_manager.py lines 195-233): the agent lookup, the authorization-link
lookup, tool instantiation, or successful resolution to a tool whose `run`
behaves as given.  `unexpectedFault` models any other exception caught by
the outermost `except` (line 240). -/
inductive Resolution where
  | agentNotFound (agentName : String)
  | notAuthorized (agentName toolName : String)
  | noInstance (toolName : String)
  | unexpectedFault (toolName agentName msg : String)
  | resolved (b : ToolRunBehavior)
deriving DecidableEq, Repr

/-- Whether resolution reached a ready-to-invoke tool. -/
def Resolution.isResolved : Resolution → Bool
  | .resolved _ => true
  | _ => false

/-- `ToolManager.execute_tool` (tool_manager.py lines 178-245): on a
resolution failure yields a single error envelope and stops; on success
relays every envelope produced by `BaseTool.run`. -/
def execute_tool (r : Resolution) : List Envelope :=
  match r with
  | .agentNotFound a =>
      [Envelope.error ("Agent '" ++ a ++ "' not found")]
  | .notAuthorized a t =>
      [Envelope.error ("Agent '" ++ a ++ "' does not have permission to use tool '"
        ++ t ++ "' or tool is inactive")]
  | .noInstance t =>
      [Envelope.error ("Tool '" ++ t ++ "' not found or could not be instantiated")]
  | .unexpectedFault _ _ m =>
      [Envelope.error ("Unexpected error during tool execution: " ++ m)]
  | .resolved b => BaseTool.run b

/-! ## Action Executor (`ChatManager.execute_action`) -/

/-- The static fields of one planned action (`app/plan/planner.py`'s
`Action`): `{agent_name, action_type, parameters, explanation}`.
Parameters are opaque to the executor (passed through to the tool) and are
not modelled. -/
structure ActionSpec where
  agent_name : String
  action_type : String
  explanation : String
deriving DecidableEq, Repr

/-- An event yielded by `execute_action` (chat_manager.py lines 141-241).
`message_saved` carries the persisted message; the only field the claims
inspect is its `content`. -/
inductive ActionEvent where
  | message_chunk (content : String)
  | message_saved (content : String)
  | error (msg : String)
deriving DecidableEq, Repr

def ActionEvent.isChunk : ActionEvent → Bool
  | .message_chunk _ => true
  | _ => false

def ActionEvent.isSaved : ActionEvent → Bool
  | .message_saved _ => true
  | _ => false

def ActionEvent.isError : ActionEvent → Bool
  | .error _ => true
  | _ => false

/-- The `async for chunk in tool_stream:` loop of `execute_action`
(lines 181-198): returns the `message_chunk` events yielded, the
content accumulator, and the message of the first error envelope if the
loop aborted on one.  A content chunk with falsy (empty) content is
neither accumulated nor forwarded (`if chunk_content:`). -/
def drainStream : List Envelope → List ActionEvent × List String × Option String
  | [] => ([], [], none)
  | Envelope.error m :: _ => ([], [], some m)
  | Envelope.success d :: rest =>
      let r := drainStream rest
      match d with
      | ToolEvent.contentChunk c =>
          if c = "" then r
          else (ActionEvent.message_chunk c :: r.1, c :: r.2.1, r.2.2)
      | ToolEvent.other _ _ => r

/-- Placeholder persisted when the accumulated content is empty
(chat_manager.py line 205). -/
def emptyContentPlaceholder : String := "(Action produced no text content)"

/-- `ChatManager.execute_action` (chat_manager.py lines 141-241), given:
whether `action.agent_name` occurs in the in-memory agent list
(`agentFound`), the envelope stream returned by `execute_tool` (`envs`),
and whether `Message.create` raises (`saveFault`, caught by the
method's own `except` at line 239).  Returns the yielded events together
with the content of the assistant message persisted to storage, if any. -/
def execute_action (a : ActionSpec) (agentFound : Bool) (envs : List Envelope)
    (saveFault : Option String) : List ActionEvent × Option String :=
  if agentFound then
    let r := drainStream envs
    match r.2.2 with
    | some m => (r.1 ++ [ActionEvent.error m], none)
    | none =>
        let full := String.join r.2.1
        let full := if full = "" then emptyContentPlaceholder else full
        match saveFault with
        | some m => (r.1 ++ [ActionEvent.error m], none)
        | none => (r.1 ++ [ActionEvent.message_saved full], some full)
  else
    ([ActionEvent.error ("Agent " ++ a.agent_name ++ " not found")], none)

/-- The content-chunk payloads carried by the success envelopes of a
stream, in order. -/
def envContentChunks (envs : List Envelope) : List String :=
  envs.filterMap fun e =>
    match e with
    | Envelope.success (ToolEvent.contentChunk c) => some c
    | _ => none

/-- The contents of the `message_chunk` events of an action-event list,
in order. -/
def chunkContents (evs : List ActionEvent) : List String :=
  evs.filterMap fun e =>
    match e with
    | ActionEvent.message_chunk c => some c
    | _ => none

/-! ## Chat resolution and title generation (`_generate_chat_title`,
`get_or_create_chat`) -/

/-- First-few-words fallback title (chat_manager.py lines 93, 98):
`' '.join(message_content.split()[:5]) + '...'`.  Python's `str.split()`
splits on whitespace runs, discarding empty pieces. -/
def fallbackTitle (message_content : String) : String :=
  String.intercalate " "
    (((message_content.split (fun c => c.isWhitespace)).filter (fun w => w ≠ "")).take 5)
    ++ "..."

/-- `ChatManager._generate_chat_title` (chat_manager.py lines 76-99),
given the outcome of the `llm.aChat` call: either a raised exception
(`Except.error`) or the returned `content` field.  Always returns a
title; never raises. -/
def generate_chat_title (message_content : String)
    (llm : Except String String) : String :=
  match llm with
  | .error _ => fallbackTitle message_content
  | .ok content =>
      let generated := (content.trim).replace "\"" ""
      if generated = "" then fallbackTitle message_content
      else generated.take 100

/-- The chat record fields the core reads. -/
structure ChatRec where
  id : String
  title : String
deriving DecidableEq, Repr

/-- `ChatManager.get_or_create_chat` (chat_manager.py lines 101-139).
`chatExists` is the oracle for `Chat.get` succeeding when a truthy
`chat_id` is supplied, in which case `existing` is the record returned.
The `Bool` in the result records whether the creation path ran (i.e. the
returned chat is newly created); an `Except.error` is the raised
`ValueError`. -/
def get_or_create_chat (chat_id : Option String) (chatExists : Bool)
    (existing : ChatRec) (owner : Option String)
    (first_message : Option String) (llm : Except String String) :
    Except String (ChatRec × Bool) :=
  if strOptTruthy chat_id && chatExists then
    .ok (existing, false)
  else if !(strOptTruthy owner) then
    .error "Owner is required to create a new chat"
  else
    let title :=
      if !(strOptTruthy first_message) then "New Chat"
      else generate_chat_title (first_message.getD "") llm
    .ok ({ id := "new", title := title }, true)

/-! ## Orchestration Pipeline (`ChatManager.process_message_stream`) -/

/-- One entry of the Conversation Context (`{"role": ..., "content": ...}`). -/
structure CtxMsg where
  role : String
  content : String
deriving DecidableEq, Repr

/-- The `step` payloads of `{"type": "progress", "data": {...}}` events.
Each constructor keeps the payload fields the claims inspect. -/
inductive Step where
  | status (msg : String)
  | chat_created (id : String) (title : String)
  | history_retrieved (count : Nat)
  | user_message_saved (content : String)
  | intention_recognized (intention : String)
  | plan_generated (n : Nat)
  | action_started (index : Nat) (agent : String) (actionType : String)
  | message_chunk (index : Nat) (content : String) (agent : String)
  | action_result (index : Nat) (content : String)
  | action_error (index : Nat) (err : String) (agent : String)
  | fatal_error (err : String)
deriving DecidableEq, Repr

/-- A Progress Event emitted by the pipeline: a `progress` event or the
terminal `done` event (carrying the last assistant message's content, if
any). -/
inductive Event where
  | progress (s : Step)
  | done (last : Option String)
deriving DecidableEq, Repr

def Event.isDone : Event → Bool
  | .done _ => true
  | _ => false

def Event.isChatCreated : Event → Bool
  | .progress (.chat_created _ _) => true
  | _ => false

/-- One planned action together with the stream of events the Action
Executor yields for it (the pipeline consumes that stream; claims about
the full composition instantiate `events` with `execute_action`'s
output). -/
structure PlannedAction where
  agent_name : String
  action_type : String
  explanation : String
  events : List ActionEvent
deriving DecidableEq, Repr

/-- Terminal outcome of consuming one Action Executor stream in the
pipeline's inner `async for` loop (lines 333-354): `saved` on the first
`message_saved` (then `break`), `errored` on the first `error` (then
`raise`), `anomaly` when the stream ends with neither. -/
inductive AOutcome where
  | saved (content : String)
  | errored (msg : String)
  | anomaly
deriving DecidableEq, Repr

/-- Terminal outcome of a stream of Action Executor events. -/
def streamOutcome : List ActionEvent → AOutcome
  | [] => .anomaly
  | ActionEvent.message_saved c :: _ => .saved c
  | ActionEvent.error m :: _ => .errored m
  | ActionEvent.message_chunk _ :: rest => streamOutcome rest

/-- The progress steps the inner loop emits while consuming one Action
Executor stream at index `i` (chat_manager.py lines 333-354): each
`message_chunk` is relayed tagged with the index and agent name; the
first `message_saved` yields `action_result` and stops; the first
`error` yields `action_error` and stops. -/
def streamSteps (i : Nat) (agent : String) : List ActionEvent → List Step
  | [] => []
  | ActionEvent.message_saved c :: _ => [Step.action_result i c]
  | ActionEvent.error m :: _ => [Step.action_error i m agent]
  | ActionEvent.message_chunk c :: rest =>
      Step.message_chunk i c agent :: streamSteps i agent rest

/-- The synthesized Conversation Context entry appended after a
successfully completed action (chat_manager.py lines 360-366).  The
string literal reproduces the f-string, including the indentation
embedded in the triple-quoted source. -/
def synthEntry (agent_name action_type explanation result : String) : CtxMsg :=
  { role := "assistant",
    content := "agent: " ++ agent_name
      ++ "\n                            agent action: " ++ action_type
      ++ "\n                            agent explanation: " ++ explanation
      ++ "\n                            agent result: " ++ result }

/-- The `for i, action in enumerate(actions):` loop (chat_manager.py
lines 328-383), threading the running context and the collected
assistant-message contents.  Returns the steps emitted, the final context,
the collected contents, and `some faultMsg` when an action error aborted
the run (the re-raised `Exception("Action failed: ...")`). -/
def runActions : List PlannedAction → Nat → List CtxMsg → List String →
    List Step × List CtxMsg × List String × Option String
  | [], _, ctx, msgs => ([], ctx, msgs, none)
  | a :: rest, i, ctx, msgs =>
      let started := Step.action_started i a.agent_name a.action_type
      let steps := streamSteps i a.agent_name a.events
      match streamOutcome a.events with
      | .saved c =>
          let entry := synthEntry a.agent_name a.action_type a.explanation c
          let r := runActions rest (i + 1) (ctx ++ [entry]) (msgs ++ [c])
          (started :: steps ++ r.1, r.2)
      | .errored m =>
          (started :: steps, ctx, msgs, some ("Action failed: " ++ m))
      | .anomaly =>
          let r := runActions rest (i + 1) ctx msgs
          (started :: steps
            ++ [Step.action_error i "Action stream ended unexpectedly" a.agent_name]
            ++ r.1, r.2)

/-- The oracle for one invocation of `process_message_stream`: the
caller-supplied arguments plus the outcomes of every external
collaborator call the run makes.  `plan` carries, for each planned
action, the Action Executor stream for it. -/
structure RunOracle where
  message : String
  chat_id : Option String
  owner : Option String
  chatExists : Bool
  existing : ChatRec
  titleLLM : Except String String
  history : List CtxMsg
  userSaveFault : Option String
  intention : Except String String
  plan : Except String (List PlannedAction)
deriving Repr

/-- The chat-resolution step of a run: `get_or_create_chat` called as in
chat_manager.py lines 253-257 (`first_message = message if not chat_id
else None`). -/
def chatStep (o : RunOracle) : Except String (ChatRec × Bool) :=
  get_or_create_chat o.chat_id o.chatExists o.existing o.owner
    (if strOptTruthy o.chat_id then none else some o.message) o.titleLLM

/-- Whether the run's chat-resolution step newly created a chat. -/
def chatWasCreated (o : RunOracle) : Bool :=
  match chatStep o with
  | .ok (_, created) => created
  | .error _ => false

/-- The Conversation Context seeded before the action loop
(chat_manager.py line 313): retrieved history plus the new user message. -/
def seedCtx (o : RunOracle) : List CtxMsg :=
  o.history ++ [{ role := "user", content := o.message }]

/-- How the body of `process_message_stream`'s big `try` ends: normal
completion carrying the `done` payload, or an exception with message
`msg` escaping to the outer `except`. -/
inductive RunEnd where
  | ok (last : Option String)
  | fatal (msg : String)
deriving DecidableEq, Repr

/-- The body of `process_message_stream` (chat_manager.py lines 250-401):
the progress steps yielded before the terminal event, and how the body
ends.  Follows the source step by step; each `match` on an oracle
`Except` is the corresponding collaborator call that may raise. -/
def pmsBody (o : RunOracle) : List Step × RunEnd :=
  let evs0 := [Step.status "Initializing chat..."]
  match chatStep o with
  | .error m => (evs0, .fatal m)
  | .ok (chat, _) =>
      let evs1 := evs0 ++
        (if o.chat_id = none then [Step.chat_created chat.id chat.title] else [])
      let evs2 := evs1 ++ [Step.status "Retrieving relevant history...",
        Step.history_retrieved o.history.length,
        Step.status "Saving user message..."]
      match o.userSaveFault with
      | some m => (evs2, .fatal m)
      | none =>
          let evs3 := evs2 ++ [Step.user_message_saved o.message,
            Step.status "Recognizing intention..."]
          match o.intention with
          | .error m => (evs3, .fatal m)
          | .ok intent =>
              let evs4 := evs3 ++ [Step.intention_recognized intent,
                Step.status "Generating action plan..."]
              match o.plan with
              | .error m => (evs4, .fatal m)
              | .ok actions =>
                  let evs5 := evs4 ++ [Step.plan_generated actions.length,
                    Step.status ("Executing " ++ toString actions.length ++ " actions...")]
                  let r := runActions actions 0 (seedCtx o) []
                  match r.2.2.2 with
                  | some m => (evs5 ++ r.1, .fatal m)
                  | none =>
                      let msgs := r.2.2.1
                      let combined := String.intercalate "\n" (msgs.filter (fun c => c ≠ ""))
                      let memEvs :=
                        if msgs ≠ [] ∧ combined ≠ "" then
                          [Step.status "Saving assistant responses to memory..."]
                        else []
                      (evs5 ++ r.1 ++ memEvs, .ok msgs.getLast?)

/-- `ChatManager.process_message_stream` (chat_manager.py lines 243-406):
the full emitted event sequence.  Normal completion appends the terminal
`done` (line 401); an escaped exception is caught once at the outermost
level and surfaced as `fatal_error` followed by `done` (lines 403-406). -/
def process_message_stream (o : RunOracle) : List Event :=
  let r := pmsBody o
  match r.2 with
  | .ok last => r.1.map Event.progress ++ [Event.done last]
  | .fatal m => r.1.map Event.progress
      ++ [Event.progress (Step.fatal_error m), Event.done none]

/-! ## Helper lemmas -/

/-- The message of the first error envelope of a stream, if any. -/
def firstErrorMsg : List Envelope → Option String
  | [] => none
  | Envelope.error m :: _ => some m
  | Envelope.success _ :: rest => firstErrorMsg rest

lemma firstErrorMsg_eq_none_iff (envs : List Envelope) :
    firstErrorMsg envs = none ↔ ∀ m, Envelope.error m ∉ envs := by
  induction envs with
  | nil => simp [firstErrorMsg]
  | cons e rest ih =>
      cases e with
      | error m =>
          simp only [firstErrorMsg]
          constructor
          · intro h; cases h
          · intro h; exact absurd (List.mem_cons_self _ _) (h m)
      | success d => simp [firstErrorMsg, ih]

lemma firstErrorMsg_isSome_of_mem {m : String} {envs : List Envelope}
    (h : Envelope.error m ∈ envs) : ∃ m', firstErrorMsg envs = some m' := by
  induction envs with
  | nil => simp at h
  | cons e rest ih =>
      cases e with
      | error m' => exact ⟨m', rfl⟩
      | success d =>
          simp only [List.mem_cons] at h
          rcases h with h | h
          · simp at h
          · exact ih h

lemma drainStream_err (envs : List Envelope) :
    (drainStream envs).2.2 = firstErrorMsg envs := by
  induction envs with
  | nil => rfl
  | cons e rest ih =>
      cases e with
      | error m => rfl
      | success d =>
          cases d with
          | contentChunk c =>
              by_cases h : c = "" <;> simp [drainStream, firstErrorMsg, h, ih]
          | other k p => simp [drainStream, firstErrorMsg, ih]

lemma drainStream_acc (envs : List Envelope) (h : firstErrorMsg envs = none) :
    (drainStream envs).2.1 = (envContentChunks envs).filter (fun c => c ≠ "") := by
  induction envs with
  | nil => rfl
  | cons e rest ih =>
      cases e with
      | error m => simp [firstErrorMsg] at h
      | success d =>
          have h' : firstErrorMsg rest = none := by simpa [firstErrorMsg] using h
          cases d with
          | contentChunk c =>
              by_cases hc : c = "" <;>
                simp [drainStream, envContentChunks, hc, ih h', List.filterMap_cons]
          | other k p =>
              simp [drainStream, envContentChunks, ih h', List.filterMap_cons]

lemma drainStream_evs (envs : List Envelope) (h : firstErrorMsg envs = none) :
    (drainStream envs).1 =
      ((envContentChunks envs).filter (fun c => c ≠ "")).map ActionEvent.message_chunk := by
  induction envs with
  | nil => rfl
  | cons e rest ih =>
      cases e with
      | error m => simp [firstErrorMsg] at h
      | success d =>
          have h' : firstErrorMsg rest = none := by simpa [firstErrorMsg] using h
          cases d with
          | contentChunk c =>
              by_cases hc : c = "" <;>
                simp [drainStream, envContentChunks, hc, ih h', List.filterMap_cons]
          | other k p =>
              simp [drainStream, envContentChunks, ih h', List.filterMap_cons]

lemma drainStream_evs_chunks (envs : List Envelope) :
    ∀ e ∈ (drainStream envs).1, ∃ c, e = ActionEvent.message_chunk c := by
  induction envs with
  | nil => simp [drainStream]
  | cons e rest ih =>
      cases e with
      | error m => simp [drainStream]
      | success d =>
          cases d with
          | contentChunk c =>
              by_cases hc : c = ""
              · simpa [drainStream, hc] using ih
              · intro x hx
                simp only [drainStream, hc, if_false] at hx
                rcases List.mem_cons.mp hx with h | h
                · exact ⟨c, h⟩
                · exact ih x h
          | other k p => simpa [drainStream] using ih

lemma chunkContents_map_message_chunk (l : List String) :
    chunkContents (l.map ActionEvent.message_chunk) = l := by
  induction l with
  | nil => rfl
  | cons c l ih => simp [chunkContents, List.filterMap_cons] at ih ⊢; exact ih

lemma chunkContents_append (l₁ l₂ : List ActionEvent) :
    chunkContents (l₁ ++ l₂) = chunkContents l₁ ++ chunkContents l₂ :=
  List.filterMap_append _ _ _

lemma foldl_append_filter_ne_empty (l : List String) : ∀ init : String,
    (l.filter (fun c => c ≠ "")).foldl (fun r s => r ++ s) init
      = l.foldl (fun r s => r ++ s) init := by
  induction l with
  | nil => intro init; rfl
  | cons s l ih =>
      intro init
      rw [List.filter_cons]
      by_cases hs : s = ""
      · subst hs
        rw [if_neg (by simp)]
        rw [List.foldl_cons]
        rw [String.append_empty]
        exact ih init
      · rw [if_pos (by simpa using hs)]
        rw [List.foldl_cons, List.foldl_cons]
        exact ih (init ++ s)

lemma string_join_filter_ne_empty (l : List String) :
    String.join (l.filter (fun c => c ≠ "")) = String.join l := by
  simpa [String.join] using foldl_append_filter_ne_empty l ""

lemma filterMap_successData_map_success (l : List ToolEvent) :
    List.filterMap (Envelope.successData ∘ Envelope.success) l = l := by
  induction l with
  | nil => rfl
  | cons d l ih => simp [Envelope.successData, List.filterMap_cons, ih]

/-! ## Claim theorems: Tool Dispatch Registry -/

/-- C6: `execute_tool` yields exactly one `{status: error}` envelope when
resolution fails (agent not found, no active authorization link, no
instance, or an unexpected fault); on successful resolution it relays
every Tool Event wrapped as `{status: success, data: event}`, and a fault
raised during tool event production is reified as exactly one error
envelope after which the sequence stops. -/
theorem execute_tool_envelope_contract (r : Resolution) :
    (r.isResolved = false → ∃ m, execute_tool r = [Envelope.error m]) ∧
    (∀ b, r = Resolution.resolved b →
      (execute_tool r).filterMap Envelope.successData = b.chunks ∧
      (b.fault = none → execute_tool r = b.chunks.map Envelope.success) ∧
      (∀ m, b.fault = some m →
        execute_tool r = b.chunks.map Envelope.success ++ [Envelope.error m])) := by
  constructor
  · intro h
    cases r with
    | agentNotFound a => exact ⟨_, rfl⟩
    | notAuthorized a t => exact ⟨_, rfl⟩
    | noInstance t => exact ⟨_, rfl⟩
    | unexpectedFault t a m => exact ⟨_, rfl⟩
    | resolved b => simp [Resolution.isResolved] at h
  · intro b hb
    subst hb
    refine ⟨?_, ?_, ?_⟩
    · cases hf : b.fault with
      | none =>
          simp [execute_tool, BaseTool.run, hf, filterMap_successData_map_success]
      | some m =>
          simp [execute_tool, BaseTool.run, hf, List.filterMap_append,
            filterMap_successData_map_success, Envelope.successData]
    · intro hf; simp [execute_tool, BaseTool.run, hf]
    · intro m hf; simp [execute_tool, BaseTool.run, hf]

/-- Witness for C6 at concrete inputs: a failed resolution yields one
error envelope, and a resolved tool that yields one chunk then raises
produces the wrapped chunk followed by one error envelope. -/
theorem execute_tool_envelope_contract_witness :
    (∃ m, execute_tool (Resolution.agentNotFound "Ghost") = [Envelope.error m]) ∧
    execute_tool (Resolution.resolved ⟨[ToolEvent.contentChunk "x"], some "boom"⟩)
      = [Envelope.success (ToolEvent.contentChunk "x"), Envelope.error "boom"] := by
  constructor
  · exact (execute_tool_envelope_contract (Resolution.agentNotFound "Ghost")).1 rfl
  · simpa using
      ((execute_tool_envelope_contract
        (Resolution.resolved ⟨[ToolEvent.contentChunk "x"], some "boom"⟩)).2
        ⟨[ToolEvent.contentChunk "x"], some "boom"⟩ rfl).2.2 "boom" rfl

/-! ## Claim theorems: Action Executor -/

/-- C3 counterexample: a tool stream that terminates in success after
producing one content-chunk Tool Event whose content is empty.  The
Action Executor forwards zero `message_chunk` events (the source skips
falsy chunk content), so the forwarded count differs from the number of
content-chunk Tool Events produced. -/
theorem execute_action_chunk_count_counterexample :
    firstErrorMsg [Envelope.success (ToolEvent.contentChunk "")] = none ∧
    (envContentChunks [Envelope.success (ToolEvent.contentChunk "")]).length = 1 ∧
    (chunkContents (execute_action ⟨"A", "T", "E"⟩ true
      [Envelope.success (ToolEvent.contentChunk "")] none).1).length = 0 := by
  refine ⟨rfl, rfl, rfl⟩

/-- C3 (amended): for every action whose tool stream terminates in
success, the `message_chunk` events the Action Executor forwards are, in
order, exactly the content-chunk Tool Events with non-empty content (an
empty content chunk is dropped; no other chunk is dropped and none is
duplicated). -/
theorem execute_action_forwards_chunks (a : ActionSpec) (envs : List Envelope)
    (saveFault : Option String) (h : firstErrorMsg envs = none) :
    chunkContents (execute_action a true envs saveFault).1
      = (envContentChunks envs).filter (fun c => c ≠ "") := by
  simp only [execute_action, if_pos]
  rw [drainStream_err envs, h]
  cases saveFault with
  | some m =>
      rw [chunkContents_append, drainStream_evs envs h, chunkContents_map_message_chunk]
      simp [chunkContents]
  | none =>
      rw [chunkContents_append, drainStream_evs envs h, chunkContents_map_message_chunk]
      simp [chunkContents]

/-- Witness for C3 (amended): a stream of chunks "a", "", "b" ending in
success forwards exactly "a", "b". -/
theorem execute_action_forwards_chunks_witness :
    firstErrorMsg [Envelope.success (ToolEvent.contentChunk "a"),
        Envelope.success (ToolEvent.contentChunk ""),
        Envelope.success (ToolEvent.contentChunk "b")] = none ∧
    chunkContents (execute_action ⟨"A", "T", "E"⟩ true
        [Envelope.success (ToolEvent.contentChunk "a"),
         Envelope.success (ToolEvent.contentChunk ""),
         Envelope.success (ToolEvent.contentChunk "b")] none).1
      = ["a", "b"] := by
  constructor
  · rfl
  · rw [execute_action_forwards_chunks ⟨"A", "T", "E"⟩
      [Envelope.success (ToolEvent.contentChunk "a"),
       Envelope.success (ToolEvent.contentChunk ""),
       Envelope.success (ToolEvent.contentChunk "b")] none rfl]
    rfl

/-- C4: for every action that completes without an error event, the
content of the persisted assistant message equals the concatenation, in
arrival order, of the chunk contents accumulated from the tool's
content-chunk events; if that concatenation is empty, the fixed
placeholder is persisted instead. -/
theorem execute_action_persisted_content (a : ActionSpec) (found : Bool)
    (envs : List Envelope) (saveFault : Option String)
    (h : (execute_action a found envs saveFault).1.filter ActionEvent.isError = []) :
    (execute_action a found envs saveFault).2
      = some (if String.join (envContentChunks envs) = "" then emptyContentPlaceholder
              else String.join (envContentChunks envs)) := by
  cases found with
  | false => simp [execute_action, ActionEvent.isError] at h
  | true =>
      cases herr : (drainStream envs).2.2 with
      | some m =>
          simp [execute_action, herr, List.filter_append, ActionEvent.isError] at h
      | none =>
          cases saveFault with
          | some m =>
              simp [execute_action, herr, List.filter_append, ActionEvent.isError] at h
          | none =>
              have hfe : firstErrorMsg envs = none := by
                rw [← drainStream_err envs]; exact herr
              simp only [execute_action, if_pos, herr]
              rw [drainStream_acc envs hfe, string_join_filter_ne_empty]

/-- Witness for C4: chunks "ab", "c" round-trip into a persisted message
with content "abc". -/
theorem execute_action_persisted_content_witness :
    (execute_action ⟨"A", "T", "E"⟩ true
        [Envelope.success (ToolEvent.contentChunk "ab"),
         Envelope.success (ToolEvent.contentChunk "c")] none).1.filter
      ActionEvent.isError = [] ∧
    (execute_action ⟨"A", "T", "E"⟩ true
        [Envelope.success (ToolEvent.contentChunk "ab"),
         Envelope.success (ToolEvent.contentChunk "c")] none).2 = some "abc" := by
  constructor
  · decide
  · rw [execute_action_persisted_content ⟨"A", "T", "E"⟩ true
        [Envelope.success (ToolEvent.contentChunk "ab"),
         Envelope.success (ToolEvent.contentChunk "c")] none (by decide)]
    decide

/-- C10: when the relayed tool stream contains an error envelope, the
Action Executor yields its forwarded chunks followed by exactly one
`error` event, terminates immediately, and persists nothing to storage. -/
theorem execute_action_error_no_persist (a : ActionSpec) (envs : List Envelope)
    (saveFault : Option String) (m : String) (h : Envelope.error m ∈ envs) :
    ∃ chunks m', (execute_action a true envs saveFault).1
        = chunks ++ [ActionEvent.error m'] ∧
      (∀ e ∈ chunks, ∃ c, e = ActionEvent.message_chunk c) ∧
      ((execute_action a true envs saveFault).1.filter ActionEvent.isError).length = 1 ∧
      (execute_action a true envs saveFault).2 = none := by
  obtain ⟨m', hm'⟩ := firstErrorMsg_isSome_of_mem h
  have herr : (drainStream envs).2.2 = some m' := by
    rw [drainStream_err]; exact hm'
  have h1 : (drainStream envs).1.filter ActionEvent.isError = [] := by
    rw [List.filter_eq_nil_iff]
    intro e he
    obtain ⟨c, rfl⟩ := drainStream_evs_chunks envs e he
    simp [ActionEvent.isError]
  refine ⟨(drainStream envs).1, m', ?_, drainStream_evs_chunks envs, ?_, ?_⟩
  · simp [execute_action, herr]
  · simp [execute_action, herr, List.filter_append, h1, ActionEvent.isError]
  · simp [execute_action, herr]

/-- Witness for C10: a stream with a chunk, then an error envelope, then
a further chunk, yields one forwarded chunk and one error, and persists
nothing. -/
theorem execute_action_error_no_persist_witness :
    Envelope.error "boom" ∈
        [Envelope.success (ToolEvent.contentChunk "a"), Envelope.error "boom",
         Envelope.success (ToolEvent.contentChunk "b")] ∧
    ∃ chunks m', (execute_action ⟨"A", "T", "E"⟩ true
        [Envelope.success (ToolEvent.contentChunk "a"), Envelope.error "boom",
         Envelope.success (ToolEvent.contentChunk "b")] none).1
          = chunks ++ [ActionEvent.error m'] ∧
      (∀ e ∈ chunks, ∃ c, e = ActionEvent.message_chunk c) ∧
      ((execute_action ⟨"A", "T", "E"⟩ true
        [Envelope.success (ToolEvent.contentChunk "a"), Envelope.error "boom",
         Envelope.success (ToolEvent.contentChunk "b")] none).1.filter
          ActionEvent.isError).length = 1 ∧
      (execute_action ⟨"A", "T", "E"⟩ true
        [Envelope.success (ToolEvent.contentChunk "a"), Envelope.error "boom",
         Envelope.success (ToolEvent.contentChunk "b")] none).2 = none :=
  ⟨by decide, execute_action_error_no_persist ⟨"A", "T", "E"⟩
    [Envelope.success (ToolEvent.contentChunk "a"), Envelope.error "boom",
     Envelope.success (ToolEvent.contentChunk "b")] none "boom" (by decide)⟩

/-! ## Helper lemmas: the action loop of the Orchestration Pipeline -/

/-- Whether a step is a `chat_created` progress step. -/
def Step.isChatCreatedStep : Step → Bool
  | .chat_created _ _ => true
  | _ => false

/-- Classifies the steps that only the action loop can emit. -/
def Step.isLoopStep : Step → Bool
  | .action_started _ _ _ => true
  | .message_chunk _ _ _ => true
  | .action_result _ _ => true
  | .action_error _ _ _ => true
  | _ => false

lemma streamSteps_loopSteps (i : Nat) (agent : String) (evs : List ActionEvent) :
    ∀ s ∈ streamSteps i agent evs, s.isLoopStep = true := by
  induction evs with
  | nil => simp [streamSteps]
  | cons e rest ih =>
      cases e with
      | message_saved c => simp [streamSteps, Step.isLoopStep]
      | error m => simp [streamSteps, Step.isLoopStep]
      | message_chunk c =>
          intro s hs
          rcases List.mem_cons.mp hs with h | h
          · subst h; rfl
          · exact ih s h

lemma runActions_loopSteps (actions : List PlannedAction) :
    ∀ (i : Nat) (ctx : List CtxMsg) (msgs : List String),
      ∀ s ∈ (runActions actions i ctx msgs).1, s.isLoopStep = true := by
  induction actions with
  | nil => simp [runActions]
  | cons a rest ih =>
      intro i ctx msgs s hs
      simp only [runActions] at hs
      cases ho : streamOutcome a.events with
      | saved c =>
          rw [ho] at hs
          rcases List.mem_cons.mp hs with h | h
          · subst h; rfl
          · rcases List.mem_append.mp h with h | h
            · exact streamSteps_loopSteps i a.agent_name a.events s h
            · exact ih _ _ _ s h
      | errored m =>
          rw [ho] at hs
          rcases List.mem_cons.mp hs with h | h
          · subst h; rfl
          · exact streamSteps_loopSteps i a.agent_name a.events s h
      | anomaly =>
          rw [ho] at hs
          rcases List.mem_cons.mp hs with h | h
          · subst h; rfl
          · rcases List.mem_append.mp h with h | h
            · rcases List.mem_append.mp h with h | h
              · exact streamSteps_loopSteps i a.agent_name a.events s h
              · rcases List.mem_singleton.mp h with rfl
                rfl
            · exact ih _ _ _ s h

lemma filter_isDone_map_progress (l : List Step) :
    (l.map Event.progress).filter Event.isDone = [] := by
  induction l with
  | nil => rfl
  | cons s l ih => simp [Event.isDone, ih]

/-! ## Claim theorems: Orchestration Pipeline -/

/-- C1: every run of `process_message_stream` — success or failure,
including a fatal error raised at any modelled step — emits exactly one
`done` event, and that event is the last element of the emitted
sequence (so nothing is ever emitted after `done`). -/
theorem pms_done_terminal (o : RunOracle) :
    ((process_message_stream o).filter Event.isDone).length = 1 ∧
    ∃ d, (process_message_stream o).getLast? = some (Event.done d) := by
  cases hb : (pmsBody o).2 with
  | ok last =>
      have hrep : process_message_stream o
          = (pmsBody o).1.map Event.progress ++ [Event.done last] := by
        simp [process_message_stream, hb]
      rw [hrep]
      constructor
      · rw [List.filter_append, filter_isDone_map_progress]
        rfl
      · rw [List.getLast?_append_of_ne_nil _ (by simp)]
        exact ⟨last, rfl⟩
  | fatal m =>
      have hrep : process_message_stream o
          = (pmsBody o).1.map Event.progress
            ++ [Event.progress (Step.fatal_error m), Event.done none] := by
        simp [process_message_stream, hb]
      rw [hrep]
      constructor
      · rw [List.filter_append, filter_isDone_map_progress]
        rfl
      · rw [List.getLast?_append_of_ne_nil _ (by simp)]
        exact ⟨none, rfl⟩

/-- Whether an optional planned action does not terminate in an explicit
error (an absent action counts as non-erroring). -/
def nonErroredB : Option PlannedAction → Bool
  | none => true
  | some a =>
      match streamOutcome a.events with
      | AOutcome.errored _ => false
      | _ => true

lemma streamSteps_mem_action_error (i : Nat) (agent : String) (evs : List ActionEvent)
    (m : String) (h : streamOutcome evs = AOutcome.errored m) :
    Step.action_error i m agent ∈ streamSteps i agent evs := by
  induction evs with
  | nil => simp [streamOutcome] at h
  | cons e rest ih =>
      cases e with
      | message_saved c => simp [streamOutcome] at h
      | error m' =>
          have : m' = m := by simpa [streamOutcome] using h
          subst this
          simp [streamSteps]
      | message_chunk c =>
          have h' : streamOutcome rest = AOutcome.errored m := by
            simpa [streamOutcome] using h
          exact List.mem_cons_of_mem _ (ih h')

lemma streamSteps_no_started (i : Nat) (agent : String) (evs : List ActionEvent)
    (j : Nat) (ag aty : String) :
    Step.action_started j ag aty ∉ streamSteps i agent evs := by
  induction evs with
  | nil => simp [streamSteps]
  | cons e rest ih =>
      cases e with
      | message_saved c => simp [streamSteps]
      | error m => simp [streamSteps]
      | message_chunk c =>
          intro hmem
          rcases List.mem_cons.mp hmem with h | h
          · cases h
          · exact ih h

lemma runActions_mem_started_head (a : PlannedAction) (rest : List PlannedAction)
    (i : Nat) (ctx : List CtxMsg) (msgs : List String) :
    Step.action_started i a.agent_name a.action_type
      ∈ (runActions (a :: rest) i ctx msgs).1 := by
  simp only [runActions]
  cases streamOutcome a.events <;> simp

lemma runActions_errored :
    ∀ (actions : List PlannedAction) (k : Nat) (ak : PlannedAction) (m : String)
      (i0 : Nat) (ctx : List CtxMsg) (msgs : List String),
      actions[k]? = some ak →
      streamOutcome ak.events = AOutcome.errored m →
      (∀ j, j < k → nonErroredB actions[j]? = true) →
      (runActions actions i0 ctx msgs).2.2.2 = some ("Action failed: " ++ m) ∧
      Step.action_error (i0 + k) m ak.agent_name ∈ (runActions actions i0 ctx msgs).1 ∧
      (∀ j ag aty, Step.action_started j ag aty ∈ (runActions actions i0 ctx msgs).1 →
        j ≤ i0 + k) := by
  intro actions
  induction actions with
  | nil =>
      intro k ak m i0 ctx msgs hk
      simp at hk
  | cons a rest ih =>
      intro k ak m i0 ctx msgs hk hout hpre
      cases k with
      | zero =>
          rw [List.getElem?_cons_zero] at hk
          obtain rfl : a = ak := by injection hk
          simp only [runActions, hout]
          refine ⟨trivial, ?_, ?_⟩
          · rw [Nat.add_zero]
            exact List.mem_cons_of_mem _
              (streamSteps_mem_action_error i0 a.agent_name a.events m hout)
          · intro j ag aty hmem
            rcases List.mem_cons.mp hmem with h | h
            · injection h with h1 _ _
              omega
            · exact absurd h (streamSteps_no_started i0 a.agent_name a.events j ag aty)
      | succ k' =>
          rw [List.getElem?_cons_succ] at hk
          have ha : nonErroredB (some a) = true := by
            have := hpre 0 (Nat.succ_pos k')
            simpa using this
          have hpre' : ∀ j, j < k' → nonErroredB rest[j]? = true := by
            intro j hj
            have := hpre (j + 1) (Nat.succ_lt_succ hj)
            simpa using this
          cases ho : streamOutcome a.events with
          | errored m' => simp [nonErroredB, ho] at ha
          | saved c =>
              have hrest := ih k' ak m (i0 + 1)
                (ctx ++ [synthEntry a.agent_name a.action_type a.explanation c])
                (msgs ++ [c]) hk hout hpre'
              simp only [runActions, ho]
              refine ⟨hrest.1, ?_, ?_⟩
              · have harith : i0 + (k' + 1) = (i0 + 1) + k' := by omega
                rw [harith]
                exact List.mem_cons_of_mem _ (List.mem_append_right _ hrest.2.1)
              · intro j ag aty hmem
                rcases List.mem_cons.mp hmem with h | h
                · injection h with h1 _ _
                  omega
                · rcases List.mem_append.mp h with h | h
                  · exact absurd h (streamSteps_no_started i0 a.agent_name a.events j ag aty)
                  · have := hrest.2.2 j ag aty h
                    omega
          | anomaly =>
              have hrest := ih k' ak m (i0 + 1) ctx msgs hk hout hpre'
              simp only [runActions, ho]
              refine ⟨hrest.1, ?_, ?_⟩
              · have harith : i0 + (k' + 1) = (i0 + 1) + k' := by omega
                rw [harith]
                exact List.mem_cons_of_mem _ (List.mem_append_right _ hrest.2.1)
              · intro j ag aty hmem
                rcases List.mem_cons.mp hmem with h | h
                · injection h with h1 _ _
                  omega
                · rcases List.mem_append.mp h with h | h
                  · rcases List.mem_append.mp h with h | h
                    · exact absurd h (streamSteps_no_started i0 a.agent_name a.events j ag aty)
                    · rcases List.mem_singleton.mp h with h
                      cases h
                  · have := hrest.2.2 j ag aty h
                    omega

/-- The fixed progress steps a run emits before the action loop, given the
resolved chat, the recognized intention and the plan length. -/
def preSteps (o : RunOracle) (chat : ChatRec) (intent : String) (n : Nat) : List Step :=
  [Step.status "Initializing chat..."]
  ++ (if o.chat_id = none then [Step.chat_created chat.id chat.title] else [])
  ++ [Step.status "Retrieving relevant history...",
      Step.history_retrieved o.history.length,
      Step.status "Saving user message...",
      Step.user_message_saved o.message,
      Step.status "Recognizing intention...",
      Step.intention_recognized intent,
      Step.status "Generating action plan...",
      Step.plan_generated n,
      Step.status ("Executing " ++ toString n ++ " actions...")]

lemma preSteps_no_loop (o : RunOracle) (chat : ChatRec) (intent : String) (n : Nat) :
    ∀ s ∈ preSteps o chat intent n, s.isLoopStep = false := by
  intro s hs
  by_cases hcid : o.chat_id = none <;>
    simp [preSteps, hcid] at hs <;>
    rcases hs with rfl | rfl | rfl | rfl | rfl | rfl | rfl | rfl | rfl | rfl | rfl <;> rfl

/-- `pmsBody` decomposed around the action loop: the emitted steps are the
fixed pre-loop steps, then the loop's steps, then (on success only) the
memory-save status, and the run's end matches the loop's fault. -/
lemma pmsBody_decomp (o : RunOracle) (actions : List PlannedAction)
    (chat : ChatRec) (created : Bool) (intent : String)
    (hc : chatStep o = Except.ok (chat, created))
    (husr : o.userSaveFault = none)
    (hs : o.intention = Except.ok intent)
    (hplan : o.plan = Except.ok actions) :
    ∃ post,
      (pmsBody o).1
        = preSteps o chat intent actions.length
          ++ (runActions actions 0 (seedCtx o) []).1 ++ post ∧
      (∀ s ∈ post, s.isLoopStep = false) ∧
      (∀ s ∈ post, s.isChatCreatedStep = false) ∧
      (pmsBody o).2 =
        (match (runActions actions 0 (seedCtx o) []).2.2.2 with
         | some f => RunEnd.fatal f
         | none => RunEnd.ok (runActions actions 0 (seedCtx o) []).2.2.1.getLast?) := by
  cases hf : (runActions actions 0 (seedCtx o) []).2.2.2 with
  | some f =>
      refine ⟨[], ?_, by simp, by simp, ?_⟩
      · simp [pmsBody, hc, husr, hs, hplan, hf, preSteps]
      · simp [pmsBody, hc, husr, hs, hplan, hf]
  | none =>
      refine ⟨if (runActions actions 0 (seedCtx o) []).2.2.1 ≠ [] ∧
          String.intercalate "\n"
            ((runActions actions 0 (seedCtx o) []).2.2.1.filter (fun c => c ≠ "")) ≠ ""
        then [Step.status "Saving assistant responses to memory..."] else [], ?_, ?_, ?_, ?_⟩
      · simp only [pmsBody, hc, husr, hs, hplan, hf, preSteps]
        split <;> simp
      · intro s hs'
        split at hs'
        · rcases List.mem_singleton.mp hs' with rfl
          rfl
        · cases hs'
      · intro s hs'
        split at hs'
        · rcases List.mem_singleton.mp hs' with rfl
          rfl
        · cases hs'
      · simp [pmsBody, hc, husr, hs, hplan, hf]

/-- C2: when action `i` of a plan is the first whose Action Executor
stream yields an `error` event, the run emits `action_error` at index
`i`, no `action_started` event for any index greater than `i` is ever
emitted, and the run ends with a `fatal_error` progress event followed
by `done`. -/
theorem pms_fail_fast (o : RunOracle) (actions : List PlannedAction)
    (chat : ChatRec) (created : Bool) (intent : String)
    (i : Nat) (ai : PlannedAction) (m : String)
    (hc : chatStep o = Except.ok (chat, created))
    (husr : o.userSaveFault = none)
    (hs : o.intention = Except.ok intent)
    (hplan : o.plan = Except.ok actions)
    (hi : actions[i]? = some ai)
    (hout : streamOutcome ai.events = AOutcome.errored m)
    (hpre : ∀ j, j < i → nonErroredB actions[j]? = true) :
    Event.progress (Step.action_error i m ai.agent_name) ∈ process_message_stream o ∧
    (∀ j ag aty, i < j →
      Event.progress (Step.action_started j ag aty) ∉ process_message_stream o) ∧
    ∃ p, process_message_stream o
      = p ++ [Event.progress (Step.fatal_error ("Action failed: " ++ m)),
              Event.done none] := by
  obtain ⟨post, hdec, hpostloop, _, hend⟩ :=
    pmsBody_decomp o actions chat created intent hc husr hs hplan
  have hrun := runActions_errored actions i ai m 0 (seedCtx o) [] hi hout hpre
  have hend' : (pmsBody o).2 = RunEnd.fatal ("Action failed: " ++ m) := by
    rw [hend, hrun.1]
  have hrep : process_message_stream o
      = (pmsBody o).1.map Event.progress
        ++ [Event.progress (Step.fatal_error ("Action failed: " ++ m)),
            Event.done none] := by
    simp [process_message_stream, hend']
  refine ⟨?_, ?_, ⟨_, hrep⟩⟩
  · rw [hrep]
    apply List.mem_append_left
    apply List.mem_map_of_mem
    rw [hdec]
    have hmem := hrun.2.1
    rw [Nat.zero_add] at hmem
    exact List.mem_append_left _ (List.mem_append_right _ hmem)
  · intro j ag aty hij hmem
    rw [hrep] at hmem
    rcases List.mem_append.mp hmem with hmem | hmem
    · obtain ⟨st, hst, hst2⟩ := List.mem_map.mp hmem
      injection hst2 with hst2
      subst hst2
      rw [hdec] at hst
      rcases List.mem_append.mp hst with hst | hst
      · rcases List.mem_append.mp hst with hst | hst
        · have := preSteps_no_loop o chat intent actions.length _ hst
          simp [Step.isLoopStep] at this
        · have := hrun.2.2 j ag aty hst
          omega
      · have := hpostloop _ hst
        simp [Step.isLoopStep] at this
    · simp at hmem

/-- The oracle of the witness run for C2: a two-action plan whose second
action's tool errors. -/
def oracleC2 : RunOracle :=
  { message := "hi", chat_id := some "c", owner := some "alice",
    chatExists := true, existing := ⟨"c", "T"⟩, titleLLM := Except.ok "t",
    history := [], userSaveFault := none, intention := Except.ok "intent",
    plan := Except.ok
      [⟨"Bob", "Answer", "e1", [ActionEvent.message_saved "ok"]⟩,
       ⟨"Eve", "Analyze", "e2", [ActionEvent.error "boom"]⟩] }

/-- Witness for C2 on a concrete two-action run: the second action's
tool error surfaces as `action_error` at index 1 and the run ends in
`fatal_error` then `done`. -/
theorem pms_fail_fast_witness :
    Event.progress (Step.action_error 1 "boom" "Eve")
      ∈ process_message_stream oracleC2 ∧
    ∃ p, process_message_stream oracleC2
      = p ++ [Event.progress (Step.fatal_error ("Action failed: " ++ "boom")),
              Event.done none] := by
  have h := pms_fail_fast oracleC2
    [⟨"Bob", "Answer", "e1", [ActionEvent.message_saved "ok"]⟩,
     ⟨"Eve", "Analyze", "e2", [ActionEvent.error "boom"]⟩]
    ⟨"c", "T"⟩ false "intent" 1
    ⟨"Eve", "Analyze", "e2", [ActionEvent.error "boom"]⟩ "boom"
    rfl rfl rfl rfl rfl rfl (by decide)
  exact ⟨h.1, h.2.2⟩

lemma runActions_anomaly :
    ∀ (actions : List PlannedAction) (k : Nat) (ak : PlannedAction)
      (i0 : Nat) (ctx : List CtxMsg) (msgs : List String),
      actions[k]? = some ak →
      streamOutcome ak.events = AOutcome.anomaly →
      (∀ j, j < k → nonErroredB actions[j]? = true) →
      Step.action_error (i0 + k) "Action stream ended unexpectedly" ak.agent_name
        ∈ (runActions actions i0 ctx msgs).1 ∧
      ∀ a', actions[k + 1]? = some a' →
        Step.action_started (i0 + k + 1) a'.agent_name a'.action_type
          ∈ (runActions actions i0 ctx msgs).1 := by
  intro actions
  induction actions with
  | nil =>
      intro k ak i0 ctx msgs hk
      simp at hk
  | cons a rest ih =>
      intro k ak i0 ctx msgs hk hout hpre
      cases k with
      | zero =>
          rw [List.getElem?_cons_zero] at hk
          obtain rfl : a = ak := by injection hk
          simp only [runActions, hout]
          constructor
          · rw [Nat.add_zero]
            exact List.mem_cons_of_mem _
              (List.mem_append_left _
                (List.mem_append_right _ (List.mem_singleton_self _)))
          · intro a' ha'
            rw [List.getElem?_cons_succ, List.getElem?_eq_some_iff] at ha'  
            obtain ⟨hlt, ha'⟩ := ha'
            cases rest with
            | nil => simp at hlt
            | cons b rest2 =>
                have hb : b = a' := by
                  simpa using ha'
                subst hb
                rw [Nat.add_zero]
                exact List.mem_cons_of_mem _
                  (List.mem_append_right _ (runActions_mem_started_head b rest2 (i0 + 1) ctx msgs))
      | succ k' =>
          rw [List.getElem?_cons_succ] at hk
          have ha : nonErroredB (some a) = true := by
            have := hpre 0 (Nat.succ_pos k')
            simpa using this
          have hpre' : ∀ j, j < k' → nonErroredB rest[j]? = true := by
            intro j hj
            have := hpre (j + 1) (Nat.succ_lt_succ hj)
            simpa using this
          cases ho : streamOutcome a.events with
          | errored m' => simp [nonErroredB, ho] at ha
          | saved c =>
              have hrest := ih k' ak (i0 + 1)
                (ctx ++ [synthEntry a.agent_name a.action_type a.explanation c])
                (msgs ++ [c]) hk hout hpre'
              simp only [runActions, ho]
              constructor
              · have harith : i0 + (k' + 1) = (i0 + 1) + k' := by omega
                rw [harith]
                exact List.mem_cons_of_mem _ (List.mem_append_right _ hrest.1)
              · intro a' ha'
                rw [List.getElem?_cons_succ] at ha'
                have harith : i0 + (k' + 1) + 1 = (i0 + 1) + k' + 1 := by omega
                rw [harith]
                exact List.mem_cons_of_mem _
                  (List.mem_append_right _ (hrest.2 a' ha'))
          | anomaly =>
              have hrest := ih k' ak (i0 + 1) ctx msgs hk hout hpre'
              simp only [runActions, ho]
              constructor
              · have harith : i0 + (k' + 1) = (i0 + 1) + k' := by omega
                rw [harith]
                exact List.mem_cons_of_mem _ (List.mem_append_right _ hrest.1)
              · intro a' ha'
                rw [List.getElem?_cons_succ] at ha'
                have harith : i0 + (k' + 1) + 1 = (i0 + 1) + k' + 1 := by omega
                rw [harith]
                exact List.mem_cons_of_mem _
                  (List.mem_append_right _ (hrest.2 a' ha'))

lemma mem_pms_of_mem_body (o : RunOracle) (s : Step) (h : s ∈ (pmsBody o).1) :
    Event.progress s ∈ process_message_stream o := by
  cases hb : (pmsBody o).2 with
  | ok last =>
      have hrep : process_message_stream o
          = (pmsBody o).1.map Event.progress ++ [Event.done last] := by
        simp [process_message_stream, hb]
      rw [hrep]
      exact List.mem_append_left _ (List.mem_map_of_mem _ h)
  | fatal m =>
      have hrep : process_message_stream o
          = (pmsBody o).1.map Event.progress
            ++ [Event.progress (Step.fatal_error m), Event.done none] := by
        simp [process_message_stream, hb]
      rw [hrep]
      exact List.mem_append_left _ (List.mem_map_of_mem _ h)

/-- C7: when action `i`'s Action Executor stream ends with neither a
`message_saved` nor an `error` event, the run emits `action_error` at
index `i` with the synthetic "Action stream ended unexpectedly" message
and continues: the next action of the plan is still started. -/
theorem pms_anomaly_continue (o : RunOracle) (actions : List PlannedAction)
    (chat : ChatRec) (created : Bool) (intent : String)
    (i : Nat) (ai a' : PlannedAction)
    (hc : chatStep o = Except.ok (chat, created))
    (husr : o.userSaveFault = none)
    (hs : o.intention = Except.ok intent)
    (hplan : o.plan = Except.ok actions)
    (hi : actions[i]? = some ai)
    (hout : streamOutcome ai.events = AOutcome.anomaly)
    (hpre : ∀ j, j < i → nonErroredB actions[j]? = true)
    (hnext : actions[i + 1]? = some a') :
    Event.progress
        (Step.action_error i "Action stream ended unexpectedly" ai.agent_name)
      ∈ process_message_stream o ∧
    Event.progress (Step.action_started (i + 1) a'.agent_name a'.action_type)
      ∈ process_message_stream o := by
  obtain ⟨post, hdec, _, _, _⟩ :=
    pmsBody_decomp o actions chat created intent hc husr hs hplan
  have hrun := runActions_anomaly actions i ai 0 (seedCtx o) [] hi hout hpre
  constructor
  · apply mem_pms_of_mem_body
    rw [hdec]
    have hmem := hrun.1
    rw [Nat.zero_add] at hmem
    exact List.mem_append_left _ (List.mem_append_right _ hmem)
  · apply mem_pms_of_mem_body
    rw [hdec]
    have hmem := hrun.2 a' hnext
    rw [Nat.zero_add] at hmem
    exact List.mem_append_left _ (List.mem_append_right _ hmem)

/-- The oracle of the witness run for C7: a two-action plan whose first
action's stream ends with no terminal event. -/
def oracleC7 : RunOracle :=
  { message := "hi", chat_id := some "c", owner := some "alice",
    chatExists := true, existing := ⟨"c", "T"⟩, titleLLM := Except.ok "t",
    history := [], userSaveFault := none, intention := Except.ok "intent",
    plan := Except.ok
      [⟨"Bob", "Answer", "e1", [ActionEvent.message_chunk "a"]⟩,
       ⟨"Zed", "Answer", "e2", [ActionEvent.message_saved "z"]⟩] }

/-- Witness for C7 on a concrete run: the anomalous first action yields
the synthetic `action_error` at index 0 and action 1 still starts. -/
theorem pms_anomaly_continue_witness :
    Event.progress (Step.action_error 0 "Action stream ended unexpectedly" "Bob")
      ∈ process_message_stream oracleC7 ∧
    Event.progress (Step.action_started 1 "Zed" "Answer")
      ∈ process_message_stream oracleC7 :=
  pms_anomaly_continue oracleC7
    [⟨"Bob", "Answer", "e1", [ActionEvent.message_chunk "a"]⟩,
     ⟨"Zed", "Answer", "e2", [ActionEvent.message_saved "z"]⟩]
    ⟨"c", "T"⟩ false "intent" 0
    ⟨"Bob", "Answer", "e1", [ActionEvent.message_chunk "a"]⟩
    ⟨"Zed", "Answer", "e2", [ActionEvent.message_saved "z"]⟩
    rfl rfl rfl rfl rfl rfl (by decide) rfl

/-- The synthesized context entries of the successfully completed actions
of a plan, in order, up to (and excluding) the first action whose stream
errors (which aborts the loop). -/
def savedEntries : List PlannedAction → List CtxMsg
  | [] => []
  | a :: rest =>
      match streamOutcome a.events with
      | AOutcome.saved c =>
          synthEntry a.agent_name a.action_type a.explanation c :: savedEntries rest
      | AOutcome.errored _ => []
      | AOutcome.anomaly => savedEntries rest

lemma runActions_ctx (actions : List PlannedAction) :
    ∀ (i : Nat) (ctx : List CtxMsg) (msgs : List String),
      (runActions actions i ctx msgs).2.1 = ctx ++ savedEntries actions := by
  induction actions with
  | nil => intro i ctx msgs; simp [runActions, savedEntries]
  | cons a rest ih =>
      intro i ctx msgs
      cases ho : streamOutcome a.events with
      | saved c =>
          simp only [runActions, ho, savedEntries]
          rw [ih]
          simp
      | errored m => simp [runActions, ho, savedEntries]
      | anomaly =>
          simp only [runActions, ho, savedEntries]
          rw [ih]

/-- C8: the Conversation Context of a run grows monotonically.  It is
seeded from the retrieved history plus the new user message; the starting
context is always a prefix of the final one (no entry is removed or
modified); the entries appended by the loop are exactly one synthesized
assistant entry per successfully completed action; and per action: on
`saved` the entry is appended before the remaining actions run (so they
see it), on `errored` the loop stops with the context unchanged, and on
an anomalous stream nothing is appended and the loop continues. -/
theorem pms_context_monotone (o : RunOracle) (actions : List PlannedAction)
    (i : Nat) (ctx : List CtxMsg) (msgs : List String) :
    seedCtx o = o.history ++ [{ role := "user", content := o.message }] ∧
    ctx <+: (runActions actions i ctx msgs).2.1 ∧
    (runActions actions i ctx msgs).2.1 = ctx ++ savedEntries actions ∧
    (∀ a rest c, actions = a :: rest → streamOutcome a.events = AOutcome.saved c →
      (runActions actions i ctx msgs).2.1
        = (runActions rest (i + 1)
            (ctx ++ [synthEntry a.agent_name a.action_type a.explanation c])
            (msgs ++ [c])).2.1) ∧
    (∀ a rest m, actions = a :: rest → streamOutcome a.events = AOutcome.errored m →
      (runActions actions i ctx msgs).2.1 = ctx) ∧
    (∀ a rest, actions = a :: rest → streamOutcome a.events = AOutcome.anomaly →
      (runActions actions i ctx msgs).2.1 = (runActions rest (i + 1) ctx msgs).2.1) := by
  refine ⟨rfl, ⟨savedEntries actions, (runActions_ctx actions i ctx msgs).symm⟩,
    runActions_ctx actions i ctx msgs, ?_, ?_, ?_⟩
  · intro a rest c hact hout
    subst hact
    simp only [runActions, hout]
  · intro a rest m hact hout
    subst hact
    simp [runActions, hout]
  · intro a rest hact hout
    subst hact
    simp only [runActions, hout]

/-- Witness for C8 at concrete inputs: a saved action appends its
synthesized entry for the rest of the loop, an erroring action leaves the
context unchanged, and an anomalous action appends nothing. -/
theorem pms_context_monotone_witness :
    (runActions [⟨"Bob", "Answer", "e", [ActionEvent.message_saved "r"]⟩] 0 [] []).2.1
      = (runActions [] 1 ([] ++ [synthEntry "Bob" "Answer" "e" "r"]) ([] ++ ["r"])).2.1 ∧
    (runActions [⟨"Eve", "Analyze", "e2", [ActionEvent.error "boom"]⟩] 0
        [⟨"user", "hi"⟩] []).2.1 = [⟨"user", "hi"⟩] ∧
    (runActions [⟨"Ann", "Answer", "e3", []⟩] 0 [] []).2.1
      = (runActions [] 1 [] []).2.1 :=
  by
  refine ⟨?_, ?_, ?_⟩
  · exact (pms_context_monotone oracleC2
      [⟨"Bob", "Answer", "e", [ActionEvent.message_saved "r"]⟩] 0 [] []).2.2.2.1
      ⟨"Bob", "Answer", "e", [ActionEvent.message_saved "r"]⟩ [] "r" rfl (by decide)
  · exact (pms_context_monotone oracleC2
      [⟨"Eve", "Analyze", "e2", [ActionEvent.error "boom"]⟩] 0
      [⟨"user", "hi"⟩] []).2.2.2.2.1
      ⟨"Eve", "Analyze", "e2", [ActionEvent.error "boom"]⟩ [] "boom" rfl (by decide)
  · exact (pms_context_monotone oracleC2
      [⟨"Ann", "Answer", "e3", []⟩] 0 [] []).2.2.2.2.2
      ⟨"Ann", "Answer", "e3", []⟩ [] rfl (by decide)

lemma loopStep_not_chatCreated (s : Step) (h : s.isLoopStep = true) :
    s.isChatCreatedStep = false := by
  cases s <;> simp_all [Step.isLoopStep, Step.isChatCreatedStep]

lemma runActions_any_chatCreated (actions : List PlannedAction) (i : Nat)
    (ctx : List CtxMsg) (msgs : List String) :
    (runActions actions i ctx msgs).1.any Step.isChatCreatedStep = false := by
  rw [List.any_eq_false]
  intro s hs
  rw [loopStep_not_chatCreated s (runActions_loopSteps actions i ctx msgs s hs)]
  simp

lemma any_chatCreated_if_status (c : Prop) [Decidable c] (msg : String) :
    (if c then [Step.status msg] else []).any Step.isChatCreatedStep = false := by
  split <;> rfl

lemma any_isChatCreated_map_progress (l : List Step) :
    (l.map Event.progress).any Event.isChatCreated = l.any Step.isChatCreatedStep := by
  induction l with
  | nil => rfl
  | cons s l ih =>
      cases s <;> simp [Event.isChatCreated, Step.isChatCreatedStep, ih]

lemma any_isChatCreated_pms (o : RunOracle) :
    (process_message_stream o).any Event.isChatCreated
      = (pmsBody o).1.any Step.isChatCreatedStep := by
  cases hb : (pmsBody o).2 with
  | ok last =>
      have hrep : process_message_stream o
          = (pmsBody o).1.map Event.progress ++ [Event.done last] := by
        simp [process_message_stream, hb]
      rw [hrep, List.any_append, any_isChatCreated_map_progress]
      simp [Event.isChatCreated]
  | fatal m =>
      have hrep : process_message_stream o
          = (pmsBody o).1.map Event.progress
            ++ [Event.progress (Step.fatal_error m), Event.done none] := by
        simp [process_message_stream, hb]
      rw [hrep, List.any_append, any_isChatCreated_map_progress]
      simp [Event.isChatCreated]

lemma pmsBody_any_chatCreated (o : RunOracle) (chat : ChatRec) (created : Bool)
    (hc : chatStep o = Except.ok (chat, created)) :
    (pmsBody o).1.any Step.isChatCreatedStep = (o.chat_id == none) := by
  cases hcid : o.chat_id with
  | none =>
      cases husr : o.userSaveFault with
      | some m => simp [pmsBody, hc, husr, hcid, Step.isChatCreatedStep]
      | none =>
          cases hint : o.intention with
          | error m => simp [pmsBody, hc, husr, hint, hcid, Step.isChatCreatedStep]
          | ok s =>
              cases hplan : o.plan with
              | error m =>
                  simp [pmsBody, hc, husr, hint, hplan, hcid, Step.isChatCreatedStep]
              | ok actions =>
                  cases hf : (runActions actions 0 (seedCtx o) []).2.2.2 with
                  | some f =>
                      simp [pmsBody, hc, husr, hint, hplan, hf, hcid,
                        Step.isChatCreatedStep, runActions_any_chatCreated]
                  | none =>
                      simp [pmsBody, hc, husr, hint, hplan, hf, hcid,
                        Step.isChatCreatedStep, runActions_any_chatCreated,
                        any_chatCreated_if_status]
  | some cid =>
      cases husr : o.userSaveFault with
      | some m => simp [pmsBody, hc, husr, hcid, Step.isChatCreatedStep]
      | none =>
          cases hint : o.intention with
          | error m => simp [pmsBody, hc, husr, hint, hcid, Step.isChatCreatedStep]
          | ok s =>
              cases hplan : o.plan with
              | error m =>
                  simp [pmsBody, hc, husr, hint, hplan, hcid, Step.isChatCreatedStep]
              | ok actions =>
                  cases hf : (runActions actions 0 (seedCtx o) []).2.2.2 with
                  | some f =>
                      simp [pmsBody, hc, husr, hint, hplan, hf, hcid,
                        Step.isChatCreatedStep, runActions_any_chatCreated]
                  | none =>
                      simp [pmsBody, hc, husr, hint, hplan, hf, hcid,
                        Step.isChatCreatedStep, runActions_any_chatCreated,
                        any_chatCreated_if_status]

lemma chatStep_none_owner (o : RunOracle) (x : ChatRec × Bool)
    (hcid : o.chat_id = none) (hc : chatStep o = Except.ok x) :
    strOptTruthy o.owner = true ∧ x.2 = true := by
  unfold chatStep get_or_create_chat at hc
  rw [hcid] at hc
  have hnone : strOptTruthy none = false := rfl
  by_cases how : strOptTruthy o.owner = true
  · refine ⟨how, ?_⟩
    rw [how] at hc
    simp [hnone] at hc
    rw [← hc]
  · rw [Bool.not_eq_true] at how
    rw [how] at hc
    simp [hnone] at hc

/-- C5 counterexample oracle: the caller supplies a chat id that does not
exist together with an owner; the run falls through to the creation path. -/
def oracleC5 : RunOracle :=
  { message := "hello", chat_id := some "missing", owner := some "alice",
    chatExists := false, existing := ⟨"missing", "old"⟩,
    titleLLM := Except.error "down", history := [], userSaveFault := none,
    intention := Except.ok "greet", plan := Except.ok [] }

/-- C5 counterexample: on a run that supplies a nonexistent chat id with
an owner present, the chat is newly created, yet no `chat_created`
progress event is emitted — refuting the claimed "if and only if". -/
theorem pms_chat_created_counterexample :
    chatWasCreated oracleC5 = true ∧
    (process_message_stream oracleC5).any Event.isChatCreated = false :=
  ⟨rfl, rfl⟩

/-- C5 (amended): a `chat_created` progress event is emitted iff the
caller supplied no chat id at all and a (truthy) owner; whenever it is
emitted the chat was indeed newly created, but a chat newly created on
the fall-through path (nonexistent chat id supplied) is not announced by
any `chat_created` event. -/
theorem pms_chat_created_iff (o : RunOracle) :
    ((process_message_stream o).any Event.isChatCreated
        = (o.chat_id == none && strOptTruthy o.owner)) ∧
    ((process_message_stream o).any Event.isChatCreated ≤ chatWasCreated o) := by
  rw [any_isChatCreated_pms]
  cases hc : chatStep o with
  | error m =>
      have h1 : (pmsBody o).1 = [Step.status "Initializing chat..."] := by
        simp [pmsBody, hc]
      rw [h1]
      have hany : ([Step.status "Initializing chat..."].any Step.isChatCreatedStep)
          = false := rfl
      rw [hany]
      have hrhs : (o.chat_id == none && strOptTruthy o.owner) = false := by
        cases hcid : o.chat_id with
        | some cid => simp
        | none =>
            by_cases how : strOptTruthy o.owner = true
            · exfalso
              unfold chatStep get_or_create_chat at hc
              rw [hcid] at hc
              rw [how] at hc
              simp [show strOptTruthy none = false from rfl] at hc
            · rw [Bool.not_eq_true] at how
              simp [how]
      rw [hrhs]
      exact ⟨rfl, Bool.false_le _⟩
  | ok c =>
      obtain ⟨chat, created⟩ := c
      rw [pmsBody_any_chatCreated o chat created hc]
      cases hcid : o.chat_id with
      | some cid => exact ⟨by simp, by simp⟩
      | none =>
          obtain ⟨how, hcr⟩ := chatStep_none_owner o (chat, created) hcid hc
          have hwas : chatWasCreated o = true := by
            unfold chatWasCreated
            rw [hc]
            exact hcr
          exact ⟨by simp [how], by simp [hwas]⟩

lemma append_dots_ne_newChat (s : String) : s ++ "..." ≠ "New Chat" := by
  intro h
  have hd : s.data ++ "...".data = "New Chat".data := congrArg String.data h
  have h1 : (s.data ++ "...".data).getLast? = some '.' := by
    rw [List.getLast?_append_of_ne_nil _ (by simp)]
    rfl
  rw [hd] at h1
  exact absurd h1 (by decide)

lemma fallbackTitle_ne_newChat (m : String) : fallbackTitle m ≠ "New Chat" := by
  intro h
  exact append_dots_ne_newChat _ h

/-- C9 counterexample oracle: a run that falls through to chat creation
(nonexistent chat id, owner present) while the title-generation LLM call
fails. -/
def oracleC9 : RunOracle :=
  { message := "hello world foo", chat_id := some "missing", owner := some "alice",
    chatExists := false, existing := ⟨"missing", "old"⟩,
    titleLLM := Except.error "llm down", history := [], userSaveFault := none,
    intention := Except.ok "greet", plan := Except.ok [] }

/-- C9 counterexample: a brand-new chat created on the fall-through path
gets the fixed title "New Chat" — not the LLM-synthesized title and not
the first-words fallback the claim requires (here the LLM call failed, so
the claim demands the fallback, which differs from "New Chat"). -/
theorem chat_title_counterexample :
    chatWasCreated oracleC9 = true ∧
    chatStep oracleC9 = Except.ok (⟨"new", "New Chat"⟩, true) ∧
    generate_chat_title oracleC9.message oracleC9.titleLLM
      = fallbackTitle oracleC9.message ∧
    ("New Chat" : String) ≠ fallbackTitle oracleC9.message := by
  refine ⟨rfl, rfl, rfl, ?_⟩
  intro h
  exact fallbackTitle_ne_newChat oracleC9.message h.symm

/-- C9 (amended): chat creation without a (truthy) owner fails with the
owner-required error; with an owner present it always succeeds, whatever
the title LLM did (title-generation failure never aborts the run); a chat
created from a supplied first message is titled by
`generate_chat_title`, which falls back to the first few words of the
message when the LLM call fails or its normalized answer is empty; a chat
created with no first message available — in a run, exactly the
fall-through case where a truthy chat id was supplied — gets the fixed
title "New Chat" instead. -/
theorem chat_title_policy (cid : Option String) (cex : Bool) (ex : ChatRec)
    (ow fm : Option String) (llm : Except String String) :
    ((strOptTruthy cid && cex) = false → strOptTruthy ow = false →
      get_or_create_chat cid cex ex ow fm llm
        = Except.error "Owner is required to create a new chat") ∧
    (strOptTruthy ow = true →
      ∃ c b, get_or_create_chat cid cex ex ow fm llm = Except.ok (c, b)) ∧
    ((strOptTruthy cid && cex) = false → strOptTruthy ow = true →
      strOptTruthy fm = true →
      get_or_create_chat cid cex ex ow fm llm
        = Except.ok (⟨"new", generate_chat_title (fm.getD "") llm⟩, true)) ∧
    ((strOptTruthy cid && cex) = false → strOptTruthy ow = true →
      strOptTruthy fm = false →
      get_or_create_chat cid cex ex ow fm llm
        = Except.ok (⟨"new", "New Chat"⟩, true)) ∧
    (∀ m e, generate_chat_title m (Except.error e) = fallbackTitle m) ∧
    (∀ m c, generate_chat_title m (Except.ok c)
      = (if (c.trim).replace "\"" "" = "" then fallbackTitle m
         else ((c.trim).replace "\"" "").take 100)) ∧
    (∀ o : RunOracle, chatStep o
      = get_or_create_chat o.chat_id o.chatExists o.existing o.owner
          (if strOptTruthy o.chat_id then none else some o.message) o.titleLLM) := by
  refine ⟨?_, ?_, ?_, ?_, ?_, ?_, ?_⟩
  · intro h1 h2
    simp [get_or_create_chat, h1, h2]
  · intro how
    by_cases h1 : (strOptTruthy cid && cex) = true
    · exact ⟨ex, false, by simp [get_or_create_chat, h1]⟩
    · rw [Bool.not_eq_true] at h1
      exact ⟨⟨"new", if !(strOptTruthy fm) then "New Chat"
          else generate_chat_title (fm.getD "") llm⟩, true,
        by simp [get_or_create_chat, h1, how]⟩
  · intro h1 how hfm
    simp [get_or_create_chat, h1, how, hfm]
  · intro h1 how hfm
    simp [get_or_create_chat, h1, how, hfm]
  · intro m e
    rfl
  · intro m c
    rfl
  · intro o
    rfl

/-- Witness for C9 (amended) at concrete inputs: creation with no owner
fails; with an owner it succeeds even when the LLM call failed; a first
message yields a `generate_chat_title` title; no first message yields
"New Chat". -/
theorem chat_title_policy_witness :
    get_or_create_chat none false ⟨"e", "t"⟩ none (some "hi") (Except.ok "T")
      = Except.error "Owner is required to create a new chat" ∧
    (∃ c b, get_or_create_chat none false ⟨"e", "t"⟩ (some "alice") (some "hi")
      (Except.error "down") = Except.ok (c, b)) ∧
    get_or_create_chat none false ⟨"e", "t"⟩ (some "alice") (some "hi")
      (Except.error "down")
      = Except.ok (⟨"new", generate_chat_title "hi" (Except.error "down")⟩, true) ∧
    get_or_create_chat (some "missing") false ⟨"e", "t"⟩ (some "alice") none
      (Except.ok "T")
      = Except.ok (⟨"new", "New Chat"⟩, true) := by
  refine ⟨?_, ?_, ?_, ?_⟩
  · exact (chat_title_policy none false ⟨"e", "t"⟩ none (some "hi")
      (Except.ok "T")).1 (by decide) (by decide)
  · exact (chat_title_policy none false ⟨"e", "t"⟩ (some "alice") (some "hi")
      (Except.error "down")).2.1 (by decide)
  · exact (chat_title_policy none false ⟨"e", "t"⟩ (some "alice") (some "hi")
      (Except.error "down")).2.2.1 (by decide) (by decide) (by decide)
  · exact (chat_title_policy (some "missing") false ⟨"e", "t"⟩ (some "alice") none
      (Except.ok "T")).2.2.2.1 (by decide) (by decide) (by decide)
